import Mathlib

/-!
# Verification of the tabxx CSV engine (src/csv.hpp)

Shallow embedding of the parse/serialize core of `tabxx::CSV`.

Modelling conventions:
* C++ `std::string` is a byte string; we model it as Lean `String` with one
  `Char` per byte (all inputs of interest are 8-bit).  `String.length` is
  therefore the byte count.
* `std::any` cells only ever hold `std::string`, `long long` or `double`
  inside this translation unit, so the cell type is the closed tagged union
  `Value` below.  `double` is modelled as an exact rational (`ℚ`); the
  decimal strings appearing in the verified claims are exactly representable,
  so rounding to binary floating point does not change any value used here.
* Thrown C++ exceptions are modelled with `Except Err` / an `Option Err`
  component; a C++ function that throws before mutating `*this` is modelled
  as returning the unchanged state together with the error.
* `std::istream` is modelled by `IStream`: the not-yet-consumed characters
  plus the eof bit.  `eof()` becomes true only after a read fails, exactly
  as in iostreams; a failed read with the eof bit already set leaves the
  target string unchanged (sentry failure).  In every state reachable here
  the fail bit is set only together with the eof bit, so only the eof bit is
  tracked.
-/

deriving instance DecidableEq for Except

namespace tabxx

/-- `CSV::Settings::LINE_ENDING` (csv.hpp line 23). -/
inductive LINE_ENDING
  | LF
  | CRLF
  | AUTO
deriving DecidableEq, Repr

/-- `CSV::Settings` (csv.hpp lines 21-73); default constructor gives
`LF`, `','`, auto-derive off, precision 1. -/
structure Settings where
  ending : LINE_ENDING
  separator : Char
  auto_derive_type : Bool
  double_precision : Int
deriving DecidableEq, Repr

/-- The default `Settings()` (csv.hpp line 26). -/
def Settings.default : Settings :=
  { ending := .LF, separator := ',', auto_derive_type := false, double_precision := 1 }

/-- The closed union of types actually stored in the `std::any` cells:
`std::string`, `long long` (64-bit signed) and `double` (modelled as an
exact rational, see the header comment). -/
inductive Value
  | Text (s : String)
  | Integer (n : Int)
  | Float (q : ℚ)
deriving DecidableEq, Repr

/-- The C++ exceptions that can escape the modelled operations. -/
inductive Err
  | invalidValueCount   -- addRow: "Invalid value count"
  | indexOutOfRange     -- removeRow: "Index out of range"
  | invalidRange        -- removeRow(begin,end): "Invalid range"
  | emptyLineData       -- parse: "Invalid Dataline (Empty Line)"
  | invalidDataline     -- parse: "Invalid Dataline"
  | strOutOfRange       -- std::out_of_range from std::string::at
  | invalidArgument     -- std::invalid_argument from stoll/stod
  | outOfRangeLL        -- std::out_of_range from stoll (value outside long long)
  | badAnyCast          -- std::bad_any_cast from any_cast in write
deriving DecidableEq, Repr

/-- The table: `settings_`, `title_`, `values_` (csv.hpp lines 408-410). -/
structure CSV where
  settings : Settings
  title : List String
  values : List (List Value)
deriving DecidableEq, Repr

/-! ## Type inference: `detectType` (csv.hpp lines 287-319) -/

/-- Numeric value of a digit string (most significant first). -/
def digitsVal (l : List Char) : Nat :=
  l.foldl (fun a c => 10 * a + (c.toNat - '0'.toNat)) 0

def isDigit (c : Char) : Bool := '0' ≤ c && c ≤ '9'

/-- Model of `std::stoll` on the strings `detectType` can pass it
(an optional sign followed by decimal digits only): no digits raises
`std::invalid_argument`; a value outside the 64-bit signed range raises
`std::out_of_range`. -/
def stollModel (s : String) : Except Err Int :=
  let (sgn, ds) : Int × List Char :=
    match s.data with
    | '+' :: r => (1, r)
    | '-' :: r => (-1, r)
    | r => (1, r)
  let digs := ds.takeWhile isDigit
  if digs = [] then .error .invalidArgument
  else
    let v : Int := sgn * (digitsVal digs : Int)
    if v < -(2 ^ 63) ∨ (2 ^ 63 - 1 : Int) < v then .error .outOfRangeLL else .ok v

/-- Model of `std::stod` on the strings `detectType` can pass it
(optional sign, decimal digits with at most one dot): the decimal value as
an exact rational.  No digits at all raises `std::invalid_argument`.
Rounding to the nearest `double` is not modelled; every float in the
verified claims is exactly representable. -/
def stodModel (s : String) : Except Err ℚ :=
  let (sgn, ds) : ℚ × List Char :=
    match s.data with
    | '+' :: r => (1, r)
    | '-' :: r => (-1, r)
    | r => (1, r)
  let intDigs := ds.takeWhile isDigit
  let rest := ds.drop intDigs.length
  let fracDigs :=
    match rest with
    | '.' :: r => r.takeWhile isDigit
    | _ => []
  if intDigs = [] ∧ fracDigs = [] then .error .invalidArgument
  else
    .ok (sgn * ((digitsVal intDigs : ℚ) + (digitsVal fracDigs : ℚ) / (10 : ℚ) ^ fracDigs.length))

/-- The character-classification loop of `detectType` (csv.hpp lines
293-311): returns `none` when the string is disqualified as numeric
(the `Text` early returns), otherwise `some isFloat`.  The `atBegin` flag
is the `ch == str.begin()` iterator comparison. -/
def scanNum : List Char → Bool → Bool → Option Bool
  | [], isFloat, _ => some isFloat
  | c :: rest, isFloat, atBegin =>
    if isDigit c then scanNum rest isFloat false
    else if c = '.' then
      if isFloat then none else scanNum rest true false
    else if atBegin && (c = '+' || c = '-') then scanNum rest isFloat false
    else none

/-- `CSV::detectType` (csv.hpp lines 287-319).  `str.at(0)` on the empty
string throws `std::out_of_range`; a matching leading and trailing `'"'`
is stripped (one character from each end); then the scan classifies the
remainder and the result is produced by `stoll` / `stod` / moving the
(stripped) string out as text. -/
def detectType (str : String) : Except Err Value :=
  match str.data with
  | [] => .error .strOutOfRange
  | c0 :: rest =>
    let l := c0 :: rest
    let s : List Char :=
      if c0 = '"' ∧ l.getLast? = some '"' then l.dropLast.drop 1 else l
    match scanNum s false true with
    | none => .ok (.Text ⟨s⟩)
    | some true => (stodModel ⟨s⟩).map .Float
    | some false => (stollModel ⟨s⟩).map .Integer

example : detectType "123" = .ok (.Integer 123) := by decide
example : detectType "12.5" = .ok (.Float ((25 : ℚ) / 2)) := by
  have h : detectType "12.5"
      = .ok (.Float ((1 : ℚ) * ((digitsVal ['1', '2'] : ℚ)
          + (digitsVal ['5'] : ℚ) / (10 : ℚ) ^ (1 : Nat)))) := rfl
  rw [h]
  norm_num [show digitsVal ['1', '2'] = 12 from rfl, show digitsVal ['5'] = 5 from rfl]
example : detectType "12.5.3" = .ok (.Text "12.5.3") := by decide
example : detectType "\"abc\"" = .ok (.Text "abc") := by decide
example : detectType "-7" = .ok (.Integer (-7)) := by decide
example : detectType "" = .error .strOutOfRange := by decide

/-! ## Input stream model -/

/-- A `std::istream` over an in-memory buffer: the unread characters and the
eof bit.  (See the header comment: the fail bit is only ever set together
with the eof bit on the paths exercised by `parse`, so it is not tracked.) -/
structure IStream where
  rest : List Char
  eofbit : Bool
deriving DecidableEq, Repr

/-- `istream::get()`: returns the next character, or `EOF` (modelled as the
byte 255 that `(char)-1` becomes, see `autoScan`) while setting the eof bit;
with the eof bit already set the sentry fails and nothing is extracted. -/
def IStream.get : IStream → Char × IStream
  | ⟨cs, true⟩ => (Char.ofNat 255, ⟨cs, true⟩)
  | ⟨[], false⟩ => (Char.ofNat 255, ⟨[], true⟩)
  | ⟨c :: cs, false⟩ => (c, ⟨cs, false⟩)

/-! ## `CSV::parse` (csv.hpp lines 339-405) -/

/-- The AUTO line-ending scan (csv.hpp lines 342-355): read one character
at a time into `line` until the first `\r` (fixes CRLF) or `\n` (fixes LF).
`ch = src.get()` stores `(char)-1` = byte 255 when `get` hits end of
stream, and that byte is pushed onto `line` like any other character
before the `!src.eof()` loop condition stops the loop. -/
def autoScan : List Char → List Char → List Char × IStream × Option LINE_ENDING
  | [], acc => (acc ++ [Char.ofNat 255], ⟨[], true⟩, none)
  | c :: cs, acc =>
    if c = '\r' then (acc, ⟨cs, false⟩, some .CRLF)
    else if c = '\n' then (acc, ⟨cs, false⟩, some .LF)
    else autoScan cs (acc ++ [c])

/-- The AUTO scan run against a stream: if the eof bit is already set the
loop body never executes. -/
def runAutoScan (s : IStream) : List Char × IStream × Option LINE_ENDING :=
  if s.eofbit then ([], s, none) else autoScan s.rest []

/-- The header tokenization loop (csv.hpp lines 367-374), with the
`std::getline(ss, name, separator)` calls inlined: scan to the next
separator; at end of string the final field is kept only when nonempty
(`!ss.eof() || !name.empty()`). -/
def headerTokens (sep : Char) : List Char → List Char → List String
  | [], acc => if acc = [] then [] else [(⟨acc⟩ : String)]
  | c :: cs, acc =>
    if c = sep then (⟨acc⟩ : String) :: headerTokens sep cs []
    else headerTokens sep cs (acc ++ [c])

/-- The field tokenization loop of a data line (csv.hpp lines 387-396),
with the `std::getline(s, val, separator)` calls inlined: every field is
pushed, including a trailing empty one (`if (s.eof()) break` runs after
the push). -/
def rowTokens (sep : Char) : List Char → List Char → List String
  | [], acc => [(⟨acc⟩ : String)]
  | c :: cs, acc =>
    if c = sep then (⟨acc⟩ : String) :: rowTokens sep cs []
    else rowTokens sep cs (acc ++ [c])

/-- A fallible map over a list, left to right, stopping at the first
exception — the effect order of the C++ loops that build a row of cells or
stream out the rows. -/
def listMapE (f : α → Except Err β) : List α → Except Err (List β)
  | [] => .ok []
  | a :: as =>
    match f a with
    | .error e => .error e
    | .ok b =>
      match listMapE f as with
      | .error e => .error e
      | .ok bs => .ok (b :: bs)

/-- A data line turned into a row of cells (csv.hpp lines 387-396): each
raw field goes through `detectType` when auto-derive is on, otherwise it is
stored as text; a `detectType` exception aborts the row at that field. -/
def rowVals (auto : Bool) (sep : Char) (line : List Char) : Except Err (List Value) :=
  listMapE (fun s => if auto then detectType s else .ok (.Text s)) (rowTokens sep line [])

/-- The data-line loop of `parse` (csv.hpp lines 376-402) on a stream whose
eof bit is clear, with the `std::getline(src, line, delim_line)` scanning
inlined (first argument = unread stream, second = the part of the current
line scanned so far).  Reaching end of stream sets the eof bit: an empty
line there ends the loop, a nonempty one is processed and then
`if (src.eof()) break` fires.  A separator hit mid-stream yields the line:
empty is a fatal `Invalid Dataline (Empty Line)` if not at end of stream;
otherwise for CRLF one further character (the `\n`) is consumed by
`src.get()`, the line is tokenized, the field count is checked against the
title count, and the row is appended. -/
def dataGo (auto : Bool) (sep delim : Char) (ncols : Nat) :
    List Char → List Char → List (List Value) → Except Err (List (List Value))
  | [], lineAcc, acc =>
    if lineAcc = [] then .ok acc
    else
      match rowVals auto sep lineAcc with
      | .error e => .error e
      | .ok row =>
        if row.length ≠ ncols then .error .invalidDataline
        else .ok (acc ++ [row])
  | [c], lineAcc, acc =>
    -- exactly one unread character: if it is the delimiter, the CRLF-mode
    -- src.get() that follows a delimiter hit finds the stream empty and
    -- sets the eof bit, so `if (src.eof()) break` ends the loop
    if c ≠ delim then dataGo auto sep delim ncols [] (lineAcc ++ [c]) acc
    else if lineAcc = [] then .error .emptyLineData
    else
      match rowVals auto sep lineAcc with
      | .error e => .error e
      | .ok row =>
        if row.length ≠ ncols then .error .invalidDataline
        else if delim = '\r' then .ok (acc ++ [row])
        else dataGo auto sep delim ncols [] [] (acc ++ [row])
  | c :: d :: ds, lineAcc, acc =>
    -- at least two unread characters: a delimiter hit leaves the stream
    -- nonempty, so in CRLF mode src.get() discards the next character `d`
    if c ≠ delim then dataGo auto sep delim ncols (d :: ds) (lineAcc ++ [c]) acc
    else if lineAcc = [] then .error .emptyLineData
    else
      match rowVals auto sep lineAcc with
      | .error e => .error e
      | .ok row =>
        if row.length ≠ ncols then .error .invalidDataline
        else if delim = '\r' then dataGo auto sep delim ncols ds [] (acc ++ [row])
        else dataGo auto sep delim ncols (d :: ds) [] (acc ++ [row])

/-- Entry into the data-line loop: `line` still holds the header line, and
when the stream's eof bit is already set the first `getline`'s sentry fails
leaving `line` unchanged, so the header line is processed once more as a
data row before `if (src.eof()) break` ends the loop. -/
def dataLoop (auto : Bool) (sep delim : Char) (ncols : Nat) (src : IStream)
    (line : List Char) : Except Err (List (List Value)) :=
  if src.eofbit then
    if line = [] then .ok []
    else
      match rowVals auto sep line with
      | .error e => .error e
      | .ok row => if row.length ≠ ncols then .error .invalidDataline else .ok [row]
  else dataGo auto sep delim ncols src.rest [] []

/-- The part of `parse` from `title_.clear()` on (csv.hpp lines 364-404):
tokenize the header line into `title_`, then run the data-line loop, and
return 0 with the populated table. -/
def parseBody (t : CSV) (line : List Char) (src : IStream) : Except Err (Int × CSV) :=
  let sep := t.settings.separator
  let delim : Char := if t.settings.ending = .LF then '\n' else '\r'
  let title := headerTokens sep line []
  match dataLoop t.settings.auto_derive_type sep delim title.length src line with
  | .error e => .error e
  | .ok values => .ok (0, { t with title := title, values := values })

/-- `parse` after the AUTO scan (csv.hpp lines 357-362): the line delimiter
is `\n` only for LF (CRLF and a still-AUTO setting both use `\r`); an empty
`line` returns -1 leaving the table untouched; otherwise in the `\r` case
one character (the `\n` of the header's CRLF) is consumed and discarded. -/
def parseFromHeader (t : CSV) (line : List Char) (src : IStream) : Except Err (Int × CSV) :=
  let delim : Char := if t.settings.ending = .LF then '\n' else '\r'
  if line = [] then .ok (-1, t)
  else parseBody t line (if delim = '\r' then (src.get).2 else src)

/-- `CSV::parse(std::istream&)` (csv.hpp lines 339-405).  Only the AUTO
branch ever fills `line`, fixing `settings_.ending_` when a terminator is
found; with an explicit LF/CRLF setting `line` stays empty. -/
def CSV.parse (t : CSV) (src : IStream) : Except Err (Int × CSV) :=
  if t.settings.ending = .AUTO then
    match runAutoScan src with
    | (line, src1, found) =>
      let t1 :=
        match found with
        | some m => { t with settings := { t.settings with ending := m } }
        | none => t
      parseFromHeader t1 line src1
  else parseFromHeader t [] src

/-! ## Row mutation and accessors (csv.hpp lines 162-211) -/

/-- `CSV::addRow` (csv.hpp lines 172-182): a length mismatch throws
"Invalid value count" before `values_` is touched; the pair is the table
state after the call together with the error, if any. -/
def CSV.addRow (t : CSV) (l : List Value) : CSV × Option Err :=
  if l.length ≠ t.title.length then (t, some .invalidValueCount)
  else ({ t with values := t.values ++ [l] }, none)

/-- `CSV::removeRow(std::size_t)` (csv.hpp lines 184-188). -/
def CSV.removeRow (t : CSV) (index : Nat) : CSV × Option Err :=
  if t.values.length ≤ index then (t, some .indexOutOfRange)
  else ({ t with values := t.values.eraseIdx index }, none)

/-- `CSV::removeRow(std::size_t, std::size_t)` (csv.hpp lines 190-194):
`erase(begin()+b, begin()+e)` removes the rows with indices in `[b, e)`. -/
def CSV.removeRowRange (t : CSV) (b e : Nat) : CSV × Option Err :=
  if t.values.length ≤ b ∨ t.values.length ≤ e ∨ e < b then (t, some .invalidRange)
  else ({ t with values := t.values.take b ++ t.values.drop e }, none)

/-- `CSV::setTitle` (csv.hpp lines 162-170): `clear()` then assign. -/
def CSV.setTitle (t : CSV) (l : List String) : CSV :=
  { t with title := l, values := [] }

/-- `CSV::clear` (csv.hpp lines 208-211). -/
def CSV.clear (t : CSV) : CSV :=
  { t with title := [], values := [] }

/-- `CSV::empty` (csv.hpp lines 204-206): only the titles are consulted. -/
def CSV.emptyTable (t : CSV) : Bool := t.title.isEmpty

/-- The table invariant of the specification: every stored row is exactly
as long as the title list. -/
def RowsMatch (t : CSV) : Prop :=
  ∀ r ∈ t.values, r.length = t.title.length

instance (t : CSV) : Decidable (RowsMatch t) := by
  unfold RowsMatch; infer_instance

/-! ## `CSV::write` (csv.hpp lines 217-284) -/

/-- The join performed by the per-field output loops (csv.hpp lines
221-228, 241-249, 263-271): each field, with the separator after every
field but the last. -/
def joinSep (sep : Char) : List String → String
  | [] => ""
  | [x] => x
  | x :: y :: ys => x ++ sep.toString ++ joinSep sep (y :: ys)

/-- Zero-padded decimal digits of `n` to width `w`. -/
def padZeros (w : Nat) (n : Nat) : String :=
  let s := toString n
  (⟨List.replicate (w - s.length) '0'⟩ : String) ++ s

/-- Model of `ss << std::fixed << std::setprecision(p) << d` (csv.hpp line
326) on the exact rational `d`: the value rounded to `p` decimal digits
(no decimal point when `p` is zero).  Negative precision and the
round-to-even tie behaviour of binary doubles are not modelled; no
verified claim depends on a rendered float. -/
def fixedFormat (p : Int) (q : ℚ) : String :=
  let w := p.toNat
  let n : Int := round (q * (10 : ℚ) ^ w)
  (if n < 0 then "-" else "") ++
    (toString (n.natAbs / 10 ^ w) ++ if w = 0 then "" else "." ++ padZeros w (n.natAbs % 10 ^ w))

/-- `CSV::anyToString` (csv.hpp lines 321-337) restricted to the three
types a cell can actually hold. -/
def anyToString (s : Settings) : Value → String
  | .Text str => str
  | .Float q => fixedFormat s.double_precision q
  | .Integer n => toString n

/-- One cell rendered by `write`: with auto-derive off the cell is
`any_cast<std::string>`-ed (throwing `std::bad_any_cast` on a non-text
cell, csv.hpp line 242); with it on, `anyToString` is used (line 264). -/
def renderCell (s : Settings) (v : Value) : Except Err String :=
  if s.auto_derive_type then .ok (anyToString s v)
  else
    match v with
    | .Text str => .ok str
    | _ => .error .badAnyCast

/-- One data row rendered by `write`: the cells joined by the separator. -/
def renderRow (s : Settings) (r : List Value) : Except Err String :=
  (listMapE (renderCell s) r).map (joinSep s.separator)

/-- `CSV::write` (csv.hpp lines 217-284): nothing is emitted for a table
with no titles; otherwise the joined titles and then every rendered row,
each followed by `\n` for the LF setting and `\r\n` otherwise (CRLF and
AUTO alike).  The result pairs the returned byte count (the sum of the
sizes of all emitted pieces, i.e. the output's byte length) with the
emitted text.  A `bad_any_cast` abandons the call; the partial output
already streamed before the throw is not modelled. -/
def CSV.write (t : CSV) : Except Err (Nat × String) :=
  if t.title = [] then .ok (0, "")
  else
    let term : String := if t.settings.ending = .LF then "\n" else "\r\n"
    match listMapE (renderRow t.settings) t.values with
    | .error e => .error e
    | .ok bodies =>
      let out := joinSep t.settings.separator t.title ++ term
        ++ String.join (bodies.map (· ++ term))
      .ok (out.length, out)

section ScratchChecks

def tLF : CSV := ⟨{ Settings.default with ending := .LF }, [], []⟩
def tAUTO : CSV := ⟨{ Settings.default with ending := .AUTO }, [], []⟩

example : tLF.parse ⟨"a,b\n1,2\n3,4\n".data, false⟩ = .ok (-1, tLF) := by decide
example : tAUTO.parse ⟨"a,b\n1,2\n3,4\n".data, false⟩ =
    .ok (0, ⟨{ Settings.default with ending := .LF }, ["a", "b"],
      [[.Text "1", .Text "2"], [.Text "3", .Text "4"]]⟩) := by decide
example : tAUTO.parse ⟨"a,b\r\n1,2\r\n3,4\r\n".data, false⟩ =
    .ok (0, ⟨{ Settings.default with ending := .CRLF }, ["a", "b"],
      [[.Text "1", .Text "2"], [.Text "3", .Text "4"]]⟩) := by decide
example : tAUTO.parse ⟨"\nx\n".data, false⟩ =
    .ok (-1, ⟨{ Settings.default with ending := .LF }, [], []⟩) := by decide
example : tAUTO.parse ⟨"a,b\n1,2\n\n3,4\n".data, false⟩ = .error .emptyLineData := by
  decide
example : tAUTO.parse ⟨"a,b\n1,2,3\n".data, false⟩ = .error .invalidDataline := by
  decide
example : tAUTO.parse ⟨"".data, false⟩ =
    .ok (0, ⟨{ Settings.default with ending := .AUTO }, [⟨[Char.ofNat 255]⟩],
      [[.Text ⟨[Char.ofNat 255]⟩]]⟩) := by decide
example : tAUTO.parse ⟨"a,b,\n1,2\n".data, false⟩ =
    .ok (0, ⟨{ Settings.default with ending := .LF }, ["a", "b"],
      [[.Text "1", .Text "2"]]⟩) := by decide
example : tAUTO.parse ⟨"a,b\n1,\n".data, false⟩ =
    .ok (0, ⟨{ Settings.default with ending := .LF }, ["a", "b"],
      [[.Text "1", .Text ""]]⟩) := by decide

example :
    (⟨{ Settings.default with ending := .LF }, ["a", "b"],
      [[.Text "1", .Text "2"], [.Text "3", .Text "4"]]⟩ : CSV).write =
    .ok (12, "a,b\n1,2\n3,4\n") := by decide

example :
    (⟨{ Settings.default with ending := .AUTO }, ["a", "b"],
      [[.Text "1", .Text "2"]]⟩ : CSV).write =
    .ok (10, "a,b\r\n1,2\r\n") := by decide

example :
    (⟨{ Settings.default with ending := .LF }, ["a"], [[.Integer 3]]⟩ : CSV).write =
    .error .badAnyCast := by decide

end ScratchChecks

/-! ## Claim C1 -/

/-- C1: evaluating `parse` at the claimed input with the line-ending mode
set explicitly to LF, separator `,` and auto-inference disabled.  Because
only the AUTO branch of `parse` ever reads characters into the header
line, an explicit mode leaves `line` empty and `parse` hits the
`if (line.empty()) return -1;` early exit: the result is a normal return
of -1 with the table still empty, not the claimed two-column table. -/
theorem parse_explicit_lf_sample_returns_empty :
    tLF.parse ⟨"a,b\n1,2\n3,4\n".data, false⟩ = .ok (-1, tLF) ∧ tLF.title = [] := by
  decide

/-! ## Claim C3 -/

/-- C3 counterexample: on the input consisting of a single `\n` (AUTO
mode fixes LF and the detected header line is empty), `parse` returns
normally with -1 and an empty table; it does not signal any error. -/
theorem parse_empty_header_sample_returns_normally :
    tAUTO.parse ⟨"\n".data, false⟩ =
      .ok (-1, ⟨{ Settings.default with ending := .LF }, [], []⟩) := by
  decide

/-- C3 (amended): whenever the header line comes out empty — always, for
an explicit LF/CRLF mode, and exactly when the first scanned character is
a terminator, for AUTO mode — `parse` returns -1 normally (no exception),
leaving titles and rows untouched (only a fixed AUTO mode is recorded into
the settings). -/
theorem parse_empty_header_returns_neg_one :
    (∀ (t : CSV) (src : IStream), t.settings.ending ≠ .AUTO →
      t.parse src = .ok (-1, t)) ∧
    (∀ (t : CSV) (rest : List Char), t.settings.ending = .AUTO →
      t.parse ⟨'\r' :: rest, false⟩ =
        .ok (-1, { t with settings := { t.settings with ending := .CRLF } }) ∧
      t.parse ⟨'\n' :: rest, false⟩ =
        .ok (-1, { t with settings := { t.settings with ending := .LF } })) := by
  constructor
  · intro t src h
    simp [CSV.parse, parseFromHeader, h]
  · intro t rest h
    constructor <;> simp [CSV.parse, runAutoScan, autoScan, parseFromHeader, h]

/-- C3 witness: the amended theorem applied to concrete tables and
streams. -/
theorem parse_empty_header_returns_neg_one_witness :
    tLF.parse ⟨"a,b\n1,2\n".data, false⟩ = .ok (-1, tLF) ∧
    tAUTO.parse ⟨'\n' :: "x".data, false⟩ =
      .ok (-1, { tAUTO with settings := { tAUTO.settings with ending := .LF } }) :=
  ⟨parse_empty_header_returns_neg_one.1 tLF ⟨"a,b\n1,2\n".data, false⟩ (by decide),
    (parse_empty_header_returns_neg_one.2 tAUTO "x".data (by decide)).2⟩

/-! ## Claim C4 -/

/-- C4: `detectType` on the empty string evaluates `str.at(0)`, which
throws `std::out_of_range`; it does not return `Text("")`. -/
theorem detectType_empty_string_throws :
    detectType "" = .error .strOutOfRange ∧ detectType "" ≠ .ok (.Text "") := by
  decide

/-! ## Claim C5 -/

/-- C5: the five sample classifications of `detectType`: plain digits give
an Integer, one dot gives a Float, a second dot or any other stray
character gives Text, a quoted string is unquoted Text, and a leading sign
is accepted on an Integer. -/
theorem detectType_samples :
    detectType "123" = .ok (.Integer 123) ∧
    detectType "12.5" = .ok (.Float (12.5 : ℚ)) ∧
    detectType "12.5.3" = .ok (.Text "12.5.3") ∧
    detectType "\"abc\"" = .ok (.Text "abc") ∧
    detectType "-7" = .ok (.Integer (-7)) := by
  refine ⟨by decide, ?_, by decide, by decide, by decide⟩
  have h : detectType "12.5"
      = .ok (.Float ((1 : ℚ) * ((digitsVal ['1', '2'] : ℚ)
          + (digitsVal ['5'] : ℚ) / (10 : ℚ) ^ (1 : Nat)))) := rfl
  rw [h]
  norm_num [show digitsVal ['1', '2'] = 12 from rfl, show digitsVal ['5'] = 5 from rfl]

/-! ## Claim C7 -/

theorem headerTokens_cons_eq (sep x : Char) (cs acc : List Char) :
    headerTokens sep (x :: cs) acc =
      if x = sep then (⟨acc⟩ : String) :: headerTokens sep cs []
      else headerTokens sep cs (acc ++ [x]) := rfl

theorem rowTokens_cons_eq (sep x : Char) (cs acc : List Char) :
    rowTokens sep (x :: cs) acc =
      if x = sep then (⟨acc⟩ : String) :: rowTokens sep cs []
      else rowTokens sep cs (acc ++ [x]) := rfl

theorem headerTokens_vs_rowTokens_len (c : Char) :
    ∀ (l acc : List Char), (∃ s, l = s ++ [c]) →
      (headerTokens c l acc).length + 1 = (rowTokens c l acc).length := by
  intro l
  induction l with
  | nil =>
    rintro acc ⟨s, hs⟩
    rcases s with _ | ⟨a, as⟩ <;> simp at hs
  | cons x xs ih =>
    rintro acc ⟨s, hs⟩
    rw [headerTokens_cons_eq, rowTokens_cons_eq]
    by_cases hx : x = c
    · rw [if_pos hx, if_pos hx]
      rcases xs with _ | ⟨y, ys⟩
      · simp [headerTokens, rowTokens]
      · have hend : ∃ s2, y :: ys = s2 ++ [c] := by
          rcases s with _ | ⟨a, as⟩
          · simp at hs
          · exact ⟨as, (List.cons.inj hs).2⟩
        simp only [List.length_cons]
        have h3 := ih [] hend
        omega
    · rw [if_neg hx, if_neg hx]
      have hend : ∃ s2, xs = s2 ++ [c] := by
        rcases s with _ | ⟨a, as⟩
        · exact absurd (List.cons.inj hs).1 hx
        · exact ⟨as, (List.cons.inj hs).2⟩
      exact ih (acc ++ [x]) hend

/-- C7: a line ending in the separator tokenizes to one more field as a
data row than as a header — the header loop drops the trailing empty
field, the data-row loop keeps it. -/
theorem header_drops_trailing_field (c : Char) (s : List Char) :
    (headerTokens c (s ++ [c]) []).length + 1 = (rowTokens c (s ++ [c]) []).length :=
  headerTokens_vs_rowTokens_len c (s ++ [c]) [] ⟨s, rfl⟩

/-! ## Claim C8 -/

/-- C8: `addRow` with a value sequence whose length differs from the title
count throws "Invalid value count" and leaves the table — in particular
its row count — unchanged. -/
theorem addRow_length_mismatch_rejected (t : CSV) (l : List Value)
    (h : l.length ≠ t.title.length) :
    t.addRow l = (t, some .invalidValueCount) ∧
    (t.addRow l).1.values.length = t.values.length := by
  simp [CSV.addRow, h]

/-- C8 witness: a two-column table rejecting a three-value row. -/
theorem addRow_length_mismatch_rejected_witness :
    (⟨Settings.default, ["a", "b"], [[.Text "1", .Text "2"]]⟩ : CSV).addRow
        [.Text "x", .Text "y", .Text "z"] =
      (⟨Settings.default, ["a", "b"], [[.Text "1", .Text "2"]]⟩, some .invalidValueCount) ∧
    ((⟨Settings.default, ["a", "b"], [[.Text "1", .Text "2"]]⟩ : CSV).addRow
        [.Text "x", .Text "y", .Text "z"]).1.values.length = 1 :=
  addRow_length_mismatch_rejected
    ⟨Settings.default, ["a", "b"], [[.Text "1", .Text "2"]]⟩
    [.Text "x", .Text "y", .Text "z"] (by decide)

/-! ## Claim C6 -/

theorem autoScan_until_terminator (pre : List Char) :
    ∀ (acc rest : List Char), (∀ ch ∈ pre, ch ≠ '\r' ∧ ch ≠ '\n') →
      autoScan (pre ++ '\r' :: rest) acc = (acc ++ pre, ⟨rest, false⟩, some .CRLF) ∧
      autoScan (pre ++ '\n' :: rest) acc = (acc ++ pre, ⟨rest, false⟩, some .LF) := by
  induction pre with
  | nil =>
    intro acc rest _
    simp [autoScan]
  | cons x xs ih =>
    intro acc rest h
    have hx := h x (List.mem_cons_self x xs)
    have hxs : ∀ ch ∈ xs, ch ≠ '\r' ∧ ch ≠ '\n' :=
      fun ch hm => h ch (List.mem_cons_of_mem x hm)
    simp only [List.cons_append, autoScan, if_neg hx.1, if_neg hx.2, List.append_eq]
    have h2 := ih (acc ++ [x]) rest hxs
    constructor
    · rw [h2.1]; simp
    · rw [h2.2]; simp

/-- C6: with the line-ending mode AUTO, the scan accumulates every
character up to the first terminator; a first `\r` fixes CRLF and a first
`\n` fixes LF; the accumulated prefix is handed on as the header line; the
rest of the parse runs on the remaining stream with the fixed mode (so the
fixed mode decides the line delimiter of every further line), and in the
CRLF case the `\n` that follows the header's `\r` is consumed and
discarded before the data lines are read. -/
theorem parse_auto_mode_detection (t : CSV) (pre rest : List Char)
    (hauto : t.settings.ending = .AUTO)
    (hpre : ∀ ch ∈ pre, ch ≠ '\r' ∧ ch ≠ '\n') :
    runAutoScan ⟨pre ++ '\r' :: rest, false⟩ = (pre, ⟨rest, false⟩, some .CRLF) ∧
    runAutoScan ⟨pre ++ '\n' :: rest, false⟩ = (pre, ⟨rest, false⟩, some .LF) ∧
    t.parse ⟨pre ++ '\r' :: rest, false⟩ =
      parseFromHeader { t with settings := { t.settings with ending := .CRLF } }
        pre ⟨rest, false⟩ ∧
    t.parse ⟨pre ++ '\n' :: rest, false⟩ =
      parseFromHeader { t with settings := { t.settings with ending := .LF } }
        pre ⟨rest, false⟩ ∧
    (pre ≠ [] → ∀ rest2 : List Char,
      t.parse ⟨pre ++ '\r' :: '\n' :: rest2, false⟩ =
        parseBody { t with settings := { t.settings with ending := .CRLF } }
          pre ⟨rest2, false⟩) := by
  have hscan := autoScan_until_terminator pre [] rest hpre
  have hs1 : runAutoScan ⟨pre ++ '\r' :: rest, false⟩ = (pre, ⟨rest, false⟩, some .CRLF) := by
    simpa [runAutoScan] using hscan.1
  have hs2 : runAutoScan ⟨pre ++ '\n' :: rest, false⟩ = (pre, ⟨rest, false⟩, some .LF) := by
    simpa [runAutoScan] using hscan.2
  refine ⟨hs1, hs2, ?_, ?_, ?_⟩
  · rw [CSV.parse, if_pos hauto, hs1]
  · rw [CSV.parse, if_pos hauto, hs2]
  · intro hne rest2
    have hscan2 := autoScan_until_terminator pre [] ('\n' :: rest2) hpre
    have hs3 : runAutoScan ⟨pre ++ '\r' :: '\n' :: rest2, false⟩
        = (pre, ⟨'\n' :: rest2, false⟩, some .CRLF) := by
      simpa [runAutoScan] using hscan2.1
    rw [CSV.parse, if_pos hauto, hs3]
    simp [parseFromHeader, hne, IStream.get]

/-- C6 witness: the header "ab" followed by a CRLF terminator fixes CRLF,
hands "ab" on as the header line, and the parse continues after the
discarded `\n`. -/
theorem parse_auto_mode_detection_witness :
    runAutoScan ⟨"ab".data ++ '\r' :: "x\r\n".data, false⟩
      = ("ab".data, ⟨"x\r\n".data, false⟩, some .CRLF) ∧
    tAUTO.parse ⟨"ab".data ++ '\r' :: '\n' :: "x\r\n".data, false⟩ =
      parseBody { tAUTO with settings := { tAUTO.settings with ending := .CRLF } }
        "ab".data ⟨"x\r\n".data, false⟩ :=
  ⟨(parse_auto_mode_detection tAUTO "ab".data "x\r\n".data (by decide) (by decide)).1,
    (parse_auto_mode_detection tAUTO "ab".data "x\r\n".data (by decide)
      (by decide)).2.2.2.2 (by decide) "x\r\n".data⟩

/-! ## Claim C10 -/

theorem renderCell_ending_irrel (s : Settings) (e : LINE_ENDING) (v : Value) :
    renderCell { s with ending := e } v = renderCell s v := by
  cases v <;> simp [renderCell, anyToString]

theorem renderRow_ending_irrel (s : Settings) (e : LINE_ENDING) :
    renderRow { s with ending := e } = renderRow s := by
  funext r
  rw [renderRow, renderRow, funext (renderCell_ending_irrel s e)]

/-- C10: a table whose settings still say AUTO is written exactly as under
CRLF: `write` emits the same bytes as it would with the mode set to CRLF,
and (when the table is non-empty and the write succeeds) the output is the
joined titles terminated by `\r\n` followed by every rendered data row
terminated by `\r\n`. -/
theorem write_auto_uses_crlf (t : CSV) (hauto : t.settings.ending = .AUTO) :
    t.write = ({ t with settings := { t.settings with ending := .CRLF } }).write ∧
    (t.title ≠ [] → ∀ (n : Nat) (out : String), t.write = .ok (n, out) →
      ∃ bodies, listMapE (renderRow t.settings) t.values = .ok bodies ∧
        out = joinSep t.settings.separator t.title ++ "\r\n"
          ++ String.join (bodies.map (· ++ "\r\n"))) := by
  have hterm : (if t.settings.ending = .LF then ("\n" : String) else "\r\n") = "\r\n" := by
    rw [hauto]; rfl
  constructor
  · simp [CSV.write, renderRow_ending_irrel, hauto]
  · intro hne n out hok
    rw [CSV.write, if_neg hne, hterm] at hok
    rcases hm : listMapE (renderRow t.settings) t.values with e | bodies
    · rw [hm] at hok
      exact absurd hok (by simp)
    · rw [hm] at hok
      simp only [Except.ok.injEq, Prod.mk.injEq] at hok
      exact ⟨bodies, rfl, hok.2.symm⟩

/-- C10 witness: a two-row AUTO-mode table is written with `\r\n` after
the header and after each row, identically to the CRLF rendering. -/
theorem write_auto_uses_crlf_witness :
    (⟨{ Settings.default with ending := .AUTO }, ["a", "b"],
        [[.Text "1", .Text "2"]]⟩ : CSV).write =
      (⟨{ Settings.default with ending := .CRLF }, ["a", "b"],
        [[.Text "1", .Text "2"]]⟩ : CSV).write ∧
    ∃ bodies,
      listMapE (renderRow { Settings.default with ending := .AUTO })
          [[.Text "1", .Text "2"]] = .ok bodies ∧
      "a,b\r\n1,2\r\n" = joinSep ',' ["a", "b"] ++ "\r\n"
        ++ String.join (bodies.map (· ++ "\r\n")) := by
  have h := write_auto_uses_crlf
    ⟨{ Settings.default with ending := .AUTO }, ["a", "b"], [[.Text "1", .Text "2"]]⟩ rfl
  exact ⟨h.1, h.2 (by decide) 10 "a,b\r\n1,2\r\n" (by decide)⟩

/-! ## Claim C9 -/

theorem rows_app_len {n : Nat} {acc : List (List Value)} {row : List Value}
    (hacc : ∀ r ∈ acc, r.length = n) (hrow : row.length = n) :
    ∀ r ∈ acc ++ [row], r.length = n := by
  intro r hr
  rcases List.mem_append.mp hr with h | h
  · exact hacc r h
  · rw [List.mem_singleton.mp h]
    exact hrow

theorem dataGo_ok_rows (auto : Bool) (sep delim : Char) (n : Nat) :
    ∀ (k : Nat) (l lineAcc : List Char) (acc vs : List (List Value)),
      l.length ≤ k →
      (∀ r ∈ acc, r.length = n) →
      dataGo auto sep delim n l lineAcc acc = .ok vs →
      ∀ r ∈ vs, r.length = n := by
  have nilCase : ∀ (lineAcc : List Char) (acc vs : List (List Value)),
      (∀ r ∈ acc, r.length = n) →
      dataGo auto sep delim n [] lineAcc acc = .ok vs →
      ∀ r ∈ vs, r.length = n := by
    intro lineAcc acc vs hacc hok
    rw [dataGo] at hok
    by_cases hla : lineAcc = []
    · rw [if_pos hla] at hok
      cases hok
      exact hacc
    · rw [if_neg hla] at hok
      rcases hrv : rowVals auto sep lineAcc with e | row
      · simp only [hrv] at hok
        exact Except.noConfusion hok
      · simp only [hrv] at hok
        by_cases hrl : row.length ≠ n
        · rw [if_pos hrl] at hok
          exact Except.noConfusion hok
        · rw [if_neg hrl] at hok
          cases hok
          exact rows_app_len hacc (not_not.mp hrl)
  intro k
  induction k with
  | zero =>
    intro l lineAcc acc vs hlen hacc hok
    have hl : l = [] := List.eq_nil_of_length_eq_zero (Nat.le_zero.mp hlen)
    subst hl
    exact nilCase lineAcc acc vs hacc hok
  | succ k ih =>
    intro l lineAcc acc vs hlen hacc hok
    rcases l with _ | ⟨c, cs⟩
    · exact nilCase lineAcc acc vs hacc hok
    rcases cs with _ | ⟨d, ds⟩
    · rw [dataGo] at hok
      by_cases hc : c ≠ delim
      · rw [if_pos hc] at hok
        exact nilCase (lineAcc ++ [c]) acc vs hacc hok
      · rw [if_neg hc] at hok
        by_cases hla : lineAcc = []
        · rw [if_pos hla] at hok
          exact Except.noConfusion hok
        · rw [if_neg hla] at hok
          rcases hrv : rowVals auto sep lineAcc with e | row
          · simp only [hrv] at hok
            exact Except.noConfusion hok
          · simp only [hrv] at hok
            by_cases hrl : row.length ≠ n
            · rw [if_pos hrl] at hok
              exact Except.noConfusion hok
            · rw [if_neg hrl] at hok
              have hacc2 := rows_app_len hacc (not_not.mp hrl)
              by_cases hd : delim = '\r'
              · rw [if_pos hd] at hok
                cases hok
                exact hacc2
              · rw [if_neg hd] at hok
                exact nilCase [] (acc ++ [row]) vs hacc2 hok
    · rw [dataGo] at hok
      by_cases hc : c ≠ delim
      · rw [if_pos hc] at hok
        exact ih (d :: ds) (lineAcc ++ [c]) acc vs (by simp at hlen ⊢; omega) hacc hok
      · rw [if_neg hc] at hok
        by_cases hla : lineAcc = []
        · rw [if_pos hla] at hok
          exact Except.noConfusion hok
        · rw [if_neg hla] at hok
          rcases hrv : rowVals auto sep lineAcc with e | row
          · simp only [hrv] at hok
            exact Except.noConfusion hok
          · simp only [hrv] at hok
            by_cases hrl : row.length ≠ n
            · rw [if_pos hrl] at hok
              exact Except.noConfusion hok
            · rw [if_neg hrl] at hok
              have hacc2 := rows_app_len hacc (not_not.mp hrl)
              by_cases hd : delim = '\r'
              · rw [if_pos hd] at hok
                exact ih ds [] (acc ++ [row]) vs (by simp at hlen ⊢; omega) hacc2 hok
              · rw [if_neg hd] at hok
                exact ih (d :: ds) [] (acc ++ [row]) vs (by simp at hlen ⊢; omega) hacc2 hok

theorem dataLoop_ok_rows (auto : Bool) (sep delim : Char) (n : Nat)
    (src : IStream) (line : List Char) (vs : List (List Value))
    (hok : dataLoop auto sep delim n src line = .ok vs) :
    ∀ r ∈ vs, r.length = n := by
  rw [dataLoop] at hok
  by_cases he : src.eofbit
  · rw [if_pos he] at hok
    by_cases hla : line = []
    · rw [if_pos hla] at hok
      cases hok
      simp
    · rw [if_neg hla] at hok
      rcases hrv : rowVals auto sep line with e | row
      · simp only [hrv] at hok
        exact Except.noConfusion hok
      · simp only [hrv] at hok
        by_cases hrl : row.length ≠ n
        · rw [if_pos hrl] at hok
          exact Except.noConfusion hok
        · rw [if_neg hrl] at hok
          cases hok
          intro r hr
          rw [List.mem_singleton.mp hr]
          exact not_not.mp hrl
  · rw [if_neg he] at hok
    exact dataGo_ok_rows auto sep delim n src.rest.length src.rest [] [] vs
      le_rfl (by simp) hok

theorem parseBody_ok_rowsMatch (t : CSV) (line : List Char) (src : IStream)
    (code : Int) (t2 : CSV) (hok : parseBody t line src = .ok (code, t2)) :
    RowsMatch t2 := by
  simp only [parseBody] at hok
  rcases hdl : dataLoop t.settings.auto_derive_type t.settings.separator
      (if t.settings.ending = .LF then '\n' else '\r')
      (headerTokens t.settings.separator line []).length src line with e | values
  · simp only [hdl] at hok
    exact Except.noConfusion hok
  · simp only [hdl] at hok
    cases hok
    intro r hr
    exact dataLoop_ok_rows _ _ _ _ _ _ _ hdl r hr

theorem parseFromHeader_ok_rowsMatch (t : CSV) (line : List Char) (src : IStream)
    (code : Int) (t2 : CSV) (hInv : RowsMatch t)
    (hok : parseFromHeader t line src = .ok (code, t2)) : RowsMatch t2 := by
  rw [parseFromHeader] at hok
  by_cases hla : line = []
  · rw [if_pos hla] at hok
    cases hok
    exact hInv
  · rw [if_neg hla] at hok
    exact parseBody_ok_rowsMatch _ _ _ _ _ hok

/-- C9: every modelled operation on the table — `addRow`, both `removeRow`
overloads, `setTitle`, `clear` and `parse` — preserves the invariant that
each stored row has exactly as many cells as there are titles; rows that
would break it are rejected with an error (`addRow` refuses the row,
`parse` aborts), never padded or truncated. -/
theorem operations_preserve_row_length_invariant :
    (∀ (t : CSV) (l : List Value), RowsMatch t → RowsMatch (t.addRow l).1) ∧
    (∀ (t : CSV) (l : List Value), l.length ≠ t.title.length →
      (t.addRow l).2 = some .invalidValueCount) ∧
    (∀ (t : CSV) (i : Nat), RowsMatch t → RowsMatch (t.removeRow i).1) ∧
    (∀ (t : CSV) (b e : Nat), RowsMatch t → RowsMatch (t.removeRowRange b e).1) ∧
    (∀ (t : CSV) (l : List String), RowsMatch (t.setTitle l)) ∧
    (∀ t : CSV, RowsMatch t.clear) ∧
    (∀ (t : CSV) (src : IStream) (code : Int) (t2 : CSV),
      RowsMatch t → t.parse src = .ok (code, t2) → RowsMatch t2) := by
  refine ⟨?_, ?_, ?_, ?_, ?_, ?_, ?_⟩
  · intro t l h
    rw [CSV.addRow]
    by_cases hl : l.length ≠ t.title.length
    · rw [if_pos hl]
      exact h
    · rw [if_neg hl]
      intro r hr
      rcases List.mem_append.mp hr with hm | hm
      · exact h r hm
      · rw [List.mem_singleton.mp hm]
        exact not_not.mp hl
  · intro t l hl
    simp [CSV.addRow, hl]
  · intro t i h
    rw [CSV.removeRow]
    by_cases hi : t.values.length ≤ i
    · rw [if_pos hi]
      exact h
    · rw [if_neg hi]
      intro r hr
      exact h r ((t.values.eraseIdx_sublist i).subset hr)
  · intro t b e h
    rw [CSV.removeRowRange]
    by_cases hc : t.values.length ≤ b ∨ t.values.length ≤ e ∨ e < b
    · rw [if_pos hc]
      exact h
    · rw [if_neg hc]
      intro r hr
      rcases List.mem_append.mp hr with hm | hm
      · exact h r (List.take_subset b t.values hm)
      · exact h r (List.drop_subset e t.values hm)
  · intro t l r hr
    simp [CSV.setTitle] at hr
  · intro t r hr
    simp [CSV.clear] at hr
  · intro t src code t2 hInv hok
    rw [CSV.parse] at hok
    by_cases hA : t.settings.ending = .AUTO
    · rw [if_pos hA] at hok
      rcases hr : runAutoScan src with ⟨line, src1, found⟩
      rcases found with _ | m
      · simp only [hr] at hok
        exact parseFromHeader_ok_rowsMatch _ _ _ _ _ hInv hok
      · simp only [hr] at hok
        exact parseFromHeader_ok_rowsMatch
          ⟨{ t.settings with ending := m }, t.title, t.values⟩ line src1 code t2 hInv hok
    · rw [if_neg hA] at hok
      exact parseFromHeader_ok_rowsMatch _ _ _ _ _ hInv hok

/-- C9 witness: the invariant verified through a concrete `addRow`, a
rejected `addRow`, and a concrete successful parse. -/
theorem operations_preserve_row_length_invariant_witness :
    RowsMatch ((⟨Settings.default, ["a", "b"],
      [[.Text "1", .Text "2"]]⟩ : CSV).addRow [.Text "3", .Text "4"]).1 ∧
    ((⟨Settings.default, ["a", "b"], []⟩ : CSV).addRow [.Text "x"]).2 =
      some .invalidValueCount ∧
    RowsMatch (⟨{ Settings.default with ending := .LF }, ["a", "b"],
      [[.Text "1", .Text "2"], [.Text "3", .Text "4"]]⟩ : CSV) :=
  ⟨operations_preserve_row_length_invariant.1
      ⟨Settings.default, ["a", "b"], [[.Text "1", .Text "2"]]⟩
      [.Text "3", .Text "4"] (by decide),
    operations_preserve_row_length_invariant.2.1
      ⟨Settings.default, ["a", "b"], []⟩ [.Text "x"] (by decide),
    operations_preserve_row_length_invariant.2.2.2.2.2.2
      tAUTO ⟨"a,b\n1,2\n3,4\n".data, false⟩ 0
      ⟨{ Settings.default with ending := .LF }, ["a", "b"],
        [[.Text "1", .Text "2"], [.Text "3", .Text "4"]]⟩
      (by decide) (by decide)⟩

/-! ## Claim C2 -/

/-- The text held by a cell (the `any_cast<std::string>` view; non-text
cells have no such view and are mapped to a placeholder never used). -/
def textOf : Value → String
  | .Text s => s
  | .Integer _ => ""
  | .Float _ => ""

/-- A string free of the separator and of both line-ending characters. -/
def cleanStrB (c : Char) (s : String) : Bool :=
  s.data.all fun ch => !(ch == c) && !(ch == '\r') && !(ch == '\n')

/-- A cell that is text and whose text is clean for separator `c`. -/
def cleanTextB (c : Char) : Value → Bool
  | .Text s => cleanStrB c s
  | _ => false

theorem data_append (a b : String) : (a ++ b).data = a.data ++ b.data := rfl

theorem mk_data (s : String) : (⟨s.data⟩ : String) = s := rfl

theorem str_ext {a b : String} (h : a.data = b.data) : a = b := by
  have h2 := congrArg String.mk h
  rwa [mk_data, mk_data] at h2

theorem joinSep_cons_cons (c : Char) (x y : String) (ys : List String) :
    joinSep c (x :: y :: ys) = x ++ c.toString ++ joinSep c (y :: ys) := rfl

theorem cleanStrB_spec {c : Char} {s : String} (h : cleanStrB c s = true) :
    ∀ ch ∈ s.data, ch ≠ c ∧ ch ≠ '\r' ∧ ch ≠ '\n' := by
  intro ch hm
  have h2 := List.all_eq_true.mp h ch hm
  simp only [Bool.and_eq_true, Bool.not_eq_eq_eq_not, Bool.not_true, beq_eq_false_iff_ne,
    ne_eq] at h2
  exact ⟨h2.1.1, h2.1.2, h2.2⟩

theorem cleanTextB_val {c : Char} {v : Value} (h : cleanTextB c v = true) :
    v = .Text (textOf v) ∧ cleanStrB c (textOf v) = true := by
  cases v <;> simp [cleanTextB, textOf] at h ⊢
  exact h

theorem joinSep_no_crlf (c : Char) (hc1 : c ≠ '\r') (hc2 : c ≠ '\n') :
    ∀ L : List String, (∀ s ∈ L, cleanStrB c s = true) →
      ∀ ch ∈ (joinSep c L).data, ch ≠ '\r' ∧ ch ≠ '\n' := by
  intro L
  induction L with
  | nil =>
    intro _ ch hm
    simp [joinSep] at hm
  | cons x ys ih =>
    rcases ys with _ | ⟨y, ys2⟩
    · intro h ch hm
      have hx := cleanStrB_spec (h x (by simp)) ch hm
      exact ⟨hx.2.1, hx.2.2⟩
    · intro h ch hm
      rw [joinSep_cons_cons, data_append, data_append] at hm
      rcases List.mem_append.mp hm with hm1 | hm2
      · rcases List.mem_append.mp hm1 with hm3 | hm4
        · have hx := cleanStrB_spec (h x (by simp)) ch hm3
          exact ⟨hx.2.1, hx.2.2⟩
        · have hch : ch = c := by
            simpa [show (c.toString).data = [c] from rfl] using hm4
          rw [hch]
          exact ⟨hc1, hc2⟩
      · exact ih (fun s hs => h s (by simp [hs])) ch hm2

theorem data_ne_nil {x : String} (h : x ≠ "") : x.data ≠ [] := by
  intro hd
  exact h (str_ext hd)

theorem joinSep_ne_nil (c : Char) (L : List String) (hne : L ≠ [])
    (hlast : L.getLast? ≠ some "") : (joinSep c L).data ≠ [] := by
  rcases L with _ | ⟨x, ys⟩
  · exact absurd rfl hne
  rcases ys with _ | ⟨y, ys2⟩
  · have hx : x ≠ "" := by
      intro h0
      exact hlast (by rw [h0]; rfl)
    exact data_ne_nil hx
  · rw [joinSep_cons_cons, data_append, data_append]
    simp [show (c.toString).data = [c] from rfl]

theorem headerTokens_end (c : Char) :
    ∀ (x acc : List Char), (∀ ch ∈ x, ch ≠ c) →
      headerTokens c x acc = (if acc ++ x = [] then [] else [(⟨acc ++ x⟩ : String)]) := by
  intro x
  induction x with
  | nil =>
    intro acc _
    simp [headerTokens]
  | cons a x2 ih =>
    intro acc h
    rw [headerTokens_cons_eq, if_neg (h a (by simp)),
      ih (acc ++ [a]) (fun ch hm => h ch (by simp [hm]))]
    simp

theorem headerTokens_through (c : Char) :
    ∀ (x acc rest : List Char), (∀ ch ∈ x, ch ≠ c) →
      headerTokens c (x ++ c :: rest) acc
        = (⟨acc ++ x⟩ : String) :: headerTokens c rest [] := by
  intro x
  induction x with
  | nil =>
    intro acc rest _
    rw [List.nil_append, headerTokens_cons_eq, if_pos rfl]
    simp
  | cons a x2 ih =>
    intro acc rest h
    rw [List.cons_append, headerTokens_cons_eq, if_neg (h a (by simp)),
      ih (acc ++ [a]) rest (fun ch hm => h ch (by simp [hm]))]
    simp

theorem rowTokens_end (c : Char) :
    ∀ (x acc : List Char), (∀ ch ∈ x, ch ≠ c) →
      rowTokens c x acc = [(⟨acc ++ x⟩ : String)] := by
  intro x
  induction x with
  | nil =>
    intro acc _
    simp [rowTokens]
  | cons a x2 ih =>
    intro acc h
    rw [rowTokens_cons_eq, if_neg (h a (by simp)),
      ih (acc ++ [a]) (fun ch hm => h ch (by simp [hm]))]
    simp

theorem rowTokens_through (c : Char) :
    ∀ (x acc rest : List Char), (∀ ch ∈ x, ch ≠ c) →
      rowTokens c (x ++ c :: rest) acc
        = (⟨acc ++ x⟩ : String) :: rowTokens c rest [] := by
  intro x
  induction x with
  | nil =>
    intro acc rest _
    rw [List.nil_append, rowTokens_cons_eq, if_pos rfl]
    simp
  | cons a x2 ih =>
    intro acc rest h
    rw [List.cons_append, rowTokens_cons_eq, if_neg (h a (by simp)),
      ih (acc ++ [a]) rest (fun ch hm => h ch (by simp [hm]))]
    simp

theorem headerTokens_joinSep (c : Char) :
    ∀ L : List String, L ≠ [] → L.getLast? ≠ some "" →
      (∀ s ∈ L, cleanStrB c s = true) →
      headerTokens c (joinSep c L).data [] = L := by
  intro L
  induction L with
  | nil => intro h; exact absurd rfl h
  | cons x ys ih =>
    intro _ hlast hclean
    have hx : ∀ ch ∈ x.data, ch ≠ c :=
      fun ch hm => (cleanStrB_spec (hclean x (by simp)) ch hm).1
    rcases ys with _ | ⟨y, ys2⟩
    · have hxne : x ≠ "" := by
        intro h0
        exact hlast (by rw [h0]; rfl)
      rw [show joinSep c [x] = x from rfl, headerTokens_end c x.data [] hx,
        if_neg (by simpa using data_ne_nil hxne)]
      simp [mk_data]
    · rw [joinSep_cons_cons, data_append, data_append,
        show (c.toString).data = [c] from rfl, List.append_assoc, List.singleton_append,
        headerTokens_through c x.data [] _ hx,
        ih (by simp) (by rw [List.getLast?_cons_cons] at hlast; exact hlast)
          (fun s hs => hclean s (by simp [hs]))]
      simp [mk_data]

theorem rowTokens_joinSep (c : Char) :
    ∀ L : List String, L ≠ [] →
      (∀ s ∈ L, ∀ ch ∈ s.data, ch ≠ c) →
      rowTokens c (joinSep c L).data [] = L := by
  intro L
  induction L with
  | nil => intro h; exact absurd rfl h
  | cons x ys ih =>
    intro _ hclean
    have hx : ∀ ch ∈ x.data, ch ≠ c := hclean x (by simp)
    rcases ys with _ | ⟨y, ys2⟩
    · rw [show joinSep c [x] = x from rfl, rowTokens_end c x.data [] hx]
      simp [mk_data]
    · rw [joinSep_cons_cons, data_append, data_append,
        show (c.toString).data = [c] from rfl, List.append_assoc, List.singleton_append,
        rowTokens_through c x.data [] _ hx,
        ih (by simp) (fun s hs => hclean s (by simp [hs]))]
      simp [mk_data]

theorem listMapE_pure (g : α → β) :
    ∀ l : List α, listMapE (fun a => (.ok (g a) : Except Err β)) l = .ok (l.map g) := by
  intro l
  induction l with
  | nil => rfl
  | cons a as ih => simp [listMapE, ih]

theorem rowVals_text_join (sep : Char) (cells : List String) (hne : cells ≠ [])
    (hclean : ∀ s ∈ cells, ∀ ch ∈ s.data, ch ≠ sep) :
    rowVals false sep (joinSep sep cells).data = .ok (cells.map .Text) := by
  rw [rowVals, rowTokens_joinSep sep cells hne hclean]
  exact listMapE_pure Value.Text cells

theorem renderRow_text (s : Settings) (ha : s.auto_derive_type = false) (r : List Value)
    (h : ∀ v ∈ r, cleanTextB s.separator v = true) :
    renderRow s r = .ok (joinSep s.separator (r.map textOf)) := by
  rw [renderRow]
  have hmap : listMapE (renderCell s) r = .ok (r.map textOf) := by
    induction r with
    | nil => rfl
    | cons v vs ih =>
      have hv := cleanTextB_val (h v (by simp))
      have hrc : renderCell s v = .ok (textOf v) := by
        rw [hv.1]
        simp [renderCell, ha, textOf]
      simp [listMapE, hrc, ih (fun v2 hv2 => h v2 (by simp [hv2]))]
  rw [hmap]
  rfl

theorem listMapE_renderRow (s : Settings) (ha : s.auto_derive_type = false) :
    ∀ rows : List (List Value),
      (∀ r ∈ rows, ∀ v ∈ r, cleanTextB s.separator v = true) →
      listMapE (renderRow s) rows
        = .ok (rows.map fun r => joinSep s.separator (r.map textOf)) := by
  intro rows
  induction rows with
  | nil => intro _; rfl
  | cons r rs ih =>
    intro h
    simp [listMapE, renderRow_text s ha r (h r (by simp)),
      ih (fun r2 h2 => h r2 (by simp [h2]))]

/-- The terminator `write` uses: `\n` for LF, `\r\n` for CRLF and AUTO. -/
def termStr (s : Settings) : String :=
  if s.ending = .LF then "\n" else "\r\n"

theorem write_text_eq (T : CSV) (ha : T.settings.auto_derive_type = false)
    (htitle : T.title ≠ [])
    (hcells : ∀ r ∈ T.values, ∀ v ∈ r, cleanTextB T.settings.separator v = true) :
    T.write = .ok
      ((joinSep T.settings.separator T.title ++ termStr T.settings
        ++ String.join (T.values.map fun r =>
            joinSep T.settings.separator (r.map textOf) ++ termStr T.settings)).length,
       joinSep T.settings.separator T.title ++ termStr T.settings
        ++ String.join (T.values.map fun r =>
            joinSep T.settings.separator (r.map textOf) ++ termStr T.settings)) := by
  simp only [CSV.write, if_neg htitle, listMapE_renderRow T.settings ha T.values hcells,
    List.map_map, termStr]
  rfl

theorem foldl_append_data :
    ∀ (l : List String) (s : String),
      (l.foldl (· ++ ·) s).data = s.data ++ (l.map String.data).flatten := by
  intro l
  induction l with
  | nil => intro s; simp
  | cons x xs ih =>
    intro s
    rw [List.foldl_cons, ih (s ++ x), data_append]
    simp

theorem join_data (l : List String) : (String.join l).data = (l.map String.data).flatten := by
  have h := foldl_append_data l ""
  simpa [String.join] using h

theorem map_textOf_text (c : Char) :
    ∀ r : List Value, (∀ v ∈ r, cleanTextB c v = true) →
      (r.map textOf).map Value.Text = r := by
  intro r
  induction r with
  | nil => simp
  | cons v vs ih =>
    intro h
    rw [List.map_cons, List.map_cons, ← (cleanTextB_val (h v (by simp))).1,
      ih (fun v2 h2 => h v2 (by simp [h2]))]

theorem dataGo_scan_line (auto : Bool) (sep delim : Char) (n : Nat) :
    ∀ x : List Char, (∀ ch ∈ x, ch ≠ delim) →
      ∀ (lineAcc : List Char) (acc : List (List Value)) (rest : List Char),
        dataGo auto sep delim n (x ++ delim :: rest) lineAcc acc
          = dataGo auto sep delim n (delim :: rest) (lineAcc ++ x) acc := by
  intro x
  induction x with
  | nil =>
    intro _ lineAcc acc rest
    simp
  | cons a x2 ih =>
    intro h lineAcc acc rest
    have ha : a ≠ delim := h a (by simp)
    rcases hx : x2 ++ delim :: rest with _ | ⟨d, ds⟩
    · exact absurd hx (by simp)
    · rw [List.cons_append, hx]
      conv_lhs => rw [dataGo]
      rw [if_pos ha, ← hx, ih (fun ch hm => h ch (by simp [hm])) (lineAcc ++ [a]) acc rest]
      simp

/-- The facts needed about one data row during the round trip: right
length, nonempty rendered line, clean text cells. -/
def goodRow (sep : Char) (n : Nat) (r : List Value) : Prop :=
  r.length = n ∧ (joinSep sep (r.map textOf)).data ≠ [] ∧
    ∀ v ∈ r, cleanTextB sep v = true

instance (sep : Char) (n : Nat) (r : List Value) : Decidable (goodRow sep n r) := by
  unfold goodRow
  infer_instance

theorem goodRow_facts {sep : Char} {n : Nat} {r : List Value}
    (hsep1 : sep ≠ '\r') (hsep2 : sep ≠ '\n') (hg : goodRow sep n r) :
    (∀ ch ∈ (joinSep sep (r.map textOf)).data, ch ≠ '\r' ∧ ch ≠ '\n') ∧
    rowVals false sep (joinSep sep (r.map textOf)).data = .ok r := by
  obtain ⟨hlen, hne, hcl⟩ := hg
  have hstr : ∀ s ∈ r.map textOf, cleanStrB sep s = true := by
    intro s hs
    obtain ⟨v, hv, rfl⟩ := List.mem_map.mp hs
    exact (cleanTextB_val (hcl v hv)).2
  have hcells_ne : r.map textOf ≠ [] := by
    intro h0
    rw [h0] at hne
    exact hne rfl
  refine ⟨joinSep_no_crlf sep hsep1 hsep2 _ hstr, ?_⟩
  rw [rowVals_text_join sep _ hcells_ne
    (fun s hs ch hm => (cleanStrB_spec (hstr s hs) ch hm).1), map_textOf_text sep r hcl]

theorem dataGo_step_lf (sep : Char) (n : Nat) (hsep1 : sep ≠ '\r') (hsep2 : sep ≠ '\n')
    (r : List Value) (acc : List (List Value)) (rest : List Char)
    (hg : goodRow sep n r) :
    dataGo false sep '\n' n ((joinSep sep (r.map textOf)).data ++ '\n' :: rest) [] acc
      = dataGo false sep '\n' n rest [] (acc ++ [r]) := by
  obtain ⟨hline, hrv⟩ := goodRow_facts hsep1 hsep2 hg
  rw [dataGo_scan_line false sep '\n' n _ (fun ch hm => (hline ch hm).2) [] acc rest,
    List.nil_append]
  have hnn : ¬('\n' ≠ '\n') := fun h => h rfl
  have hlen : ¬(r.length ≠ n) := fun h => h hg.1
  rcases rest with _ | ⟨d, ds⟩
  · conv_lhs => rw [dataGo]
    rw [if_neg hnn, if_neg hg.2.1]
    simp only [hrv, if_neg hlen]
    rw [if_neg (by decide : ¬(('\n' : Char) = '\r'))]
  · conv_lhs => rw [dataGo]
    rw [if_neg hnn, if_neg hg.2.1]
    simp only [hrv, if_neg hlen]
    rw [if_neg (by decide : ¬(('\n' : Char) = '\r'))]

theorem dataGo_step_crlf (sep : Char) (n : Nat) (hsep1 : sep ≠ '\r') (hsep2 : sep ≠ '\n')
    (r : List Value) (acc : List (List Value)) (rest : List Char)
    (hg : goodRow sep n r) :
    dataGo false sep '\r' n
        ((joinSep sep (r.map textOf)).data ++ '\r' :: '\n' :: rest) [] acc
      = dataGo false sep '\r' n rest [] (acc ++ [r]) := by
  obtain ⟨hline, hrv⟩ := goodRow_facts hsep1 hsep2 hg
  rw [dataGo_scan_line false sep '\r' n _ (fun ch hm => (hline ch hm).1) [] acc ('\n' :: rest),
    List.nil_append]
  have hnn : ¬('\r' ≠ '\r') := fun h => h rfl
  have hlen : ¬(r.length ≠ n) := fun h => h hg.1
  conv_lhs => rw [dataGo]
  rw [if_neg hnn, if_neg hg.2.1]
  simp only [hrv, if_neg hlen]
  simp

theorem dataGo_rows_lf (sep : Char) (n : Nat) (hsep1 : sep ≠ '\r') (hsep2 : sep ≠ '\n') :
    ∀ rows acc : List (List Value),
      (∀ r ∈ rows, goodRow sep n r) →
      dataGo false sep '\n' n
          ((rows.map fun r => (joinSep sep (r.map textOf)).data ++ ['\n']).flatten) [] acc
        = .ok (acc ++ rows) := by
  intro rows
  induction rows with
  | nil =>
    intro acc _
    simp [dataGo]
  | cons r rs ih =>
    intro acc h
    rw [List.map_cons, List.flatten_cons, List.append_assoc, List.singleton_append,
      dataGo_step_lf sep n hsep1 hsep2 r acc _ (h r (by simp)),
      ih (acc ++ [r]) (fun r2 h2 => h r2 (by simp [h2]))]
    simp

theorem dataGo_rows_crlf (sep : Char) (n : Nat) (hsep1 : sep ≠ '\r') (hsep2 : sep ≠ '\n') :
    ∀ rows acc : List (List Value),
      (∀ r ∈ rows, goodRow sep n r) →
      dataGo false sep '\r' n
          ((rows.map fun r => (joinSep sep (r.map textOf)).data ++ ['\r', '\n']).flatten) [] acc
        = .ok (acc ++ rows) := by
  intro rows
  induction rows with
  | nil =>
    intro acc _
    simp [dataGo]
  | cons r rs ih =>
    intro acc h
    have hsh : (joinSep sep (r.map textOf)).data ++ ['\r', '\n']
        ++ ((rs.map fun r2 => (joinSep sep (r2.map textOf)).data ++ ['\r', '\n']).flatten)
        = (joinSep sep (r.map textOf)).data ++ '\r' :: '\n'
          :: ((rs.map fun r2 => (joinSep sep (r2.map textOf)).data ++ ['\r', '\n']).flatten) := by
      simp
    rw [List.map_cons, List.flatten_cons, List.append_assoc]
    rw [show (['\r', '\n'] : List Char)
        ++ ((rs.map fun r2 => (joinSep sep (r2.map textOf)).data ++ ['\r', '\n']).flatten)
        = '\r' :: '\n'
          :: ((rs.map fun r2 => (joinSep sep (r2.map textOf)).data ++ ['\r', '\n']).flatten)
      from rfl]
    rw [dataGo_step_crlf sep n hsep1 hsep2 r acc _ (h r (by simp)),
      ih (acc ++ [r]) (fun r2 h2 => h r2 (by simp [h2]))]
    simp

theorem parseFromHeader_clean (t : CSV) (line : List Char) (src : IStream)
    (hne : line ≠ []) :
    parseFromHeader t line src
      = parseBody t line (if (if t.settings.ending = .LF then '\n' else '\r') = '\r'
          then (src.get).2 else src) := by
  simp only [parseFromHeader, if_neg hne]

theorem parseBody_lf (s : Settings) (hE : s.ending = .LF)
    (ha : s.auto_derive_type = false)
    (hsep1 : s.separator ≠ '\r') (hsep2 : s.separator ≠ '\n')
    (title : List String) (rows : List (List Value))
    (htne : title ≠ []) (htlast : title.getLast? ≠ some "")
    (htclean : ∀ x ∈ title, cleanStrB s.separator x = true)
    (hrows : ∀ r ∈ rows, goodRow s.separator title.length r) :
    parseBody ⟨s, [], []⟩ (joinSep s.separator title).data
      ⟨(rows.map fun r => (joinSep s.separator (r.map textOf)).data ++ ['\n']).flatten, false⟩
      = .ok (0, ⟨s, title, rows⟩) := by
  have hdel : (if s.ending = .LF then '\n' else '\r') = '\n' := by rw [hE]; rfl
  simp only [parseBody, hdel, ha]
  rw [headerTokens_joinSep s.separator title htne htlast htclean]
  rw [dataLoop, if_neg (by simp)]
  simp only [dataGo_rows_lf s.separator title.length hsep1 hsep2 rows [] hrows]
  simp

theorem parseBody_crlf (s : Settings) (hE : s.ending = .CRLF)
    (ha : s.auto_derive_type = false)
    (hsep1 : s.separator ≠ '\r') (hsep2 : s.separator ≠ '\n')
    (title : List String) (rows : List (List Value))
    (htne : title ≠ []) (htlast : title.getLast? ≠ some "")
    (htclean : ∀ x ∈ title, cleanStrB s.separator x = true)
    (hrows : ∀ r ∈ rows, goodRow s.separator title.length r) :
    parseBody ⟨s, [], []⟩ (joinSep s.separator title).data
      ⟨(rows.map fun r =>
        (joinSep s.separator (r.map textOf)).data ++ ['\r', '\n']).flatten, false⟩
      = .ok (0, ⟨s, title, rows⟩) := by
  have hdel : (if s.ending = .LF then '\n' else '\r') = '\r' := by rw [hE]; rfl
  simp only [parseBody, hdel, ha]
  rw [headerTokens_joinSep s.separator title htne htlast htclean]
  rw [dataLoop, if_neg (by simp)]
  simp only [dataGo_rows_crlf s.separator title.length hsep1 hsep2 rows [] hrows]
  simp

/-- C2 (amended): write/parse round trip through AUTO detection.  For a
table with auto-inference off whose separator is not a line-ending
character, whose titles are nonempty with a nonempty last title, and whose
titles and cells are text free of the separator and of `\r`/`\n`, with
every row as long as the title list and no row rendering to an empty line:
`write` succeeds, and parsing its output into a fresh table carrying the
same settings except that the line-ending mode is AUTO (explicit modes
cannot parse at all — see the counterexample) reproduces exactly the
original titles and rows, whichever of LF/CRLF/AUTO the writing table
used. -/
theorem parse_write_roundtrip (T : CSV)
    (ha : T.settings.auto_derive_type = false)
    (hsep1 : T.settings.separator ≠ '\r') (hsep2 : T.settings.separator ≠ '\n')
    (htne : T.title ≠ []) (htlast : T.title.getLast? ≠ some "")
    (htclean : ∀ s ∈ T.title, cleanStrB T.settings.separator s = true)
    (hrows : ∀ r ∈ T.values, goodRow T.settings.separator T.title.length r) :
    ∃ (n : Nat) (out : String),
      T.write = .ok (n, out) ∧
      ∃ t2 : CSV,
        CSV.parse ⟨{ T.settings with ending := .AUTO }, [], []⟩ ⟨out.data, false⟩
          = .ok (0, t2) ∧ t2.title = T.title ∧ t2.values = T.values := by
  have hw := write_text_eq T ha htne (fun r hr v hv => (hrows r hr).2.2 v hv)
  refine ⟨_, _, hw, ?_⟩
  have hHclean : ∀ ch ∈ (joinSep T.settings.separator T.title).data,
      ch ≠ '\r' ∧ ch ≠ '\n' :=
    joinSep_no_crlf T.settings.separator hsep1 hsep2 T.title htclean
  have hHne : (joinSep T.settings.separator T.title).data ≠ [] :=
    joinSep_ne_nil T.settings.separator T.title htne htlast
  have hA : ((⟨{ T.settings with ending := .AUTO }, [], []⟩ : CSV)).settings.ending
      = .AUTO := rfl
  by_cases hLF : T.settings.ending = .LF
  · have hterm : termStr T.settings = "\n" := by rw [termStr, if_pos hLF]
    refine ⟨⟨{ T.settings with ending := .LF }, T.title, T.values⟩, ?_, rfl, rfl⟩
    have hout : (joinSep T.settings.separator T.title ++ termStr T.settings
        ++ String.join (T.values.map fun r =>
            joinSep T.settings.separator (r.map textOf) ++ termStr T.settings)).data
        = (joinSep T.settings.separator T.title).data ++ '\n' ::
          ((T.values.map fun r =>
            (joinSep T.settings.separator (r.map textOf)).data ++ ['\n']).flatten) := by
      rw [hterm, data_append, data_append, join_data, List.map_map]
      simp only [Function.comp_def, data_append,
        show ("\n" : String).data = ['\n'] from rfl, List.append_assoc,
        List.singleton_append]
    rw [hout, CSV.parse, if_pos hA]
    have hscan := (autoScan_until_terminator (joinSep T.settings.separator T.title).data
      [] ((T.values.map fun r =>
        (joinSep T.settings.separator (r.map textOf)).data ++ ['\n']).flatten) hHclean).2
    have hrs : runAutoScan ⟨(joinSep T.settings.separator T.title).data ++ '\n' ::
        ((T.values.map fun r =>
          (joinSep T.settings.separator (r.map textOf)).data ++ ['\n']).flatten), false⟩
        = ((joinSep T.settings.separator T.title).data,
          ⟨(T.values.map fun r =>
            (joinSep T.settings.separator (r.map textOf)).data ++ ['\n']).flatten, false⟩,
          some .LF) := by
      simpa [runAutoScan] using hscan
    simp only [hrs]
    rw [parseFromHeader_clean _ _ _ hHne]
    exact parseBody_lf { T.settings with ending := .LF } rfl ha hsep1 hsep2
      T.title T.values htne htlast htclean hrows
  · have hterm : termStr T.settings = "\r\n" := by rw [termStr, if_neg hLF]
    refine ⟨⟨{ T.settings with ending := .CRLF }, T.title, T.values⟩, ?_, rfl, rfl⟩
    have hout : (joinSep T.settings.separator T.title ++ termStr T.settings
        ++ String.join (T.values.map fun r =>
            joinSep T.settings.separator (r.map textOf) ++ termStr T.settings)).data
        = (joinSep T.settings.separator T.title).data ++ '\r' :: '\n' ::
          ((T.values.map fun r =>
            (joinSep T.settings.separator (r.map textOf)).data ++ ['\r', '\n']).flatten) := by
      rw [hterm, data_append, data_append, join_data, List.map_map]
      simp only [Function.comp_def, data_append,
        show ("\r\n" : String).data = ['\r', '\n'] from rfl, List.append_assoc,
        List.cons_append, List.singleton_append, List.nil_append]
    rw [hout, CSV.parse, if_pos hA]
    have hscan := (autoScan_until_terminator (joinSep T.settings.separator T.title).data
      [] ('\n' :: ((T.values.map fun r =>
        (joinSep T.settings.separator (r.map textOf)).data ++ ['\r', '\n']).flatten))
      hHclean).1
    have hrs : runAutoScan ⟨(joinSep T.settings.separator T.title).data ++ '\r' :: '\n' ::
        ((T.values.map fun r =>
          (joinSep T.settings.separator (r.map textOf)).data ++ ['\r', '\n']).flatten), false⟩
        = ((joinSep T.settings.separator T.title).data,
          ⟨'\n' :: ((T.values.map fun r =>
            (joinSep T.settings.separator (r.map textOf)).data ++ ['\r', '\n']).flatten),
            false⟩,
          some .CRLF) := by
      simpa [runAutoScan] using hscan
    simp only [hrs]
    rw [parseFromHeader_clean _ _ _ hHne]
    exact parseBody_crlf { T.settings with ending := .CRLF } rfl ha hsep1 hsep2
      T.title T.values htne htlast htclean hrows

/-- C2 counterexample: the round trip under the SAME settings with an
explicit mode fails.  The valid table with title "a" and the single text
row "x" (auto-inference off, separator ',', explicit LF) writes "a\nx\n",
but parsing that text with the same explicit-LF settings returns -1 with
an empty table, whose titles differ from the original's. -/
theorem write_then_parse_same_settings_fails :
    (⟨{ Settings.default with ending := .LF }, ["a"], [[.Text "x"]]⟩ : CSV).write
      = .ok (4, "a\nx\n") ∧
    CSV.parse ⟨{ Settings.default with ending := .LF }, [], []⟩ ⟨"a\nx\n".data, false⟩
      = .ok (-1, ⟨{ Settings.default with ending := .LF }, [], []⟩) ∧
    (⟨{ Settings.default with ending := .LF }, [], []⟩ : CSV).title
      ≠ (⟨{ Settings.default with ending := .LF }, ["a"], [[.Text "x"]]⟩ : CSV).title := by
  decide

/-- C2 witness: the amended round trip at the two-column two-row sample
table, written with explicit LF and re-parsed through AUTO detection. -/
theorem parse_write_roundtrip_witness :
    ∃ (n : Nat) (out : String),
      (⟨{ Settings.default with ending := .LF }, ["a", "b"],
        [[.Text "1", .Text "2"], [.Text "3", .Text "4"]]⟩ : CSV).write = .ok (n, out) ∧
      ∃ t2 : CSV,
        CSV.parse ⟨{ Settings.default with ending := .AUTO }, [], []⟩ ⟨out.data, false⟩
          = .ok (0, t2) ∧
        t2.title = ["a", "b"] ∧
        t2.values = [[.Text "1", .Text "2"], [.Text "3", .Text "4"]] :=
  parse_write_roundtrip
    ⟨{ Settings.default with ending := .LF }, ["a", "b"],
      [[.Text "1", .Text "2"], [.Text "3", .Text "4"]]⟩
    (by decide) (by decide) (by decide) (by decide) (by decide) (by decide) (by decide)

end tabxx
